import Mathlib

/- Shallow embedding of the timeline-synthesis and scene-matching engine of
   the cbse_shorts_automator repository.  Float durations and timestamps are
   modelled as rationals; Python dicts keyed by role or string are modelled
   as association lists or functions; the bounded synthesis pool is modelled
   by the (arbitrary) arrival order of its results. -/

/-- The logical narration roles of the quiz template, listed in the fixed
template order of the audio_tasks dict in template_quiz.py (lines 47-58). -/
inductive Role
  | hook
  | question
  | opt_a
  | opt_b
  | opt_c
  | opt_d
  | think
  | explanation
  | cta
deriving DecidableEq

/-- THINK_TIME = 3.0, template_quiz.py line 87. -/
def THINK_TIME : ℚ := 3

/-- OUTRO_DURATION = 4.0, template_quiz.py line 100. -/
def OUTRO_DURATION : ℚ := 4

/-- The timeline computed by QuizTemplate.generate (template_quiz.py lines
86-101): one absolute start offset per visual/audio slot plus the total
duration. -/
structure Timeline where
  t_hook : ℚ
  t_q : ℚ
  t_a : ℚ
  t_b : ℚ
  t_c : ℚ
  t_d : ℚ
  t_think : ℚ
  t_ans : ℚ
  t_cta : ℚ
  t_outro : ℚ
  total_dur : ℚ
deriving DecidableEq

/-- Sequential accumulation of start offsets from the per-role audio
durations, exactly as in template_quiz.py lines 86-101.  The duration of the
think clip is never read: t_ans is t_think plus the THINK_TIME constant. -/
def computeTimeline (d : Role → ℚ) : Timeline :=
  let t_hook : ℚ := 0
  let t_q := t_hook + d .hook
  let t_a := t_q + d .question
  let t_b := t_a + d .opt_a
  let t_c := t_b + d .opt_b
  let t_d := t_c + d .opt_c
  let t_think := t_d + d .opt_d
  let t_ans := t_think + THINK_TIME
  let t_cta := t_ans + d .explanation
  let t_outro := t_cta + d .cta
  ⟨t_hook, t_q, t_a, t_b, t_c, t_d, t_think, t_ans, t_cta, t_outro,
    t_outro + OUTRO_DURATION⟩

/-- Collecting pool results in completion order, as the as_completed loop of
template_quiz.py lines 67-72 does: each arriving (role, duration) pair is
stored keyed by its role, overwriting the entry for that role. -/
def collectResults (l : List (Role × ℚ)) (d : Role → ℚ) : Role → ℚ :=
  l.foldl (fun acc p => Function.update acc p.1 p.2) d

/-- First-match association-list lookup (model of Python dict access for
dicts built key by key without duplicate keys). -/
def lookupD {α β : Type} [DecidableEq α] : List (α × β) → α → Option β
  | [], _ => none
  | (k, v) :: t, r => if r = k then some v else lookupD t r

/-- One segment of the cached whisper transcript: a start time and the
spoken text (video_processor.py, get_transcript_map). -/
structure Seg where
  start : ℚ
  text : List Char

/-- ASCII lower-casing of one character (model of Python str.lower). -/
def lowerCh (c : Char) : Char :=
  if 'A' ≤ c ∧ c ≤ 'Z' then Char.ofNat (c.toNat + 32) else c

/-- Lower-casing of a whole string. -/
def pyLower (s : List Char) : List Char := s.map lowerCh

/-- Substring test: does kw occur contiguously inside the second list
(model of the Python operator for membership of a string in a string)? -/
def isSub (kw : List Char) : List Char → Bool
  | [] => kw.isEmpty
  | c :: rest => kw.isPrefixOf (c :: rest) || isSub kw rest

/-- Case-insensitive substring containment, as in
keyword.lower() in seg.text.lower(). -/
def containsCI (text kw : List Char) : Bool := isSub (pyLower kw) (pyLower text)

/-- The forward scan of the for-loop in find_best_timestamp
(video_processor.py lines 74-78): the first segment whose start is at least
last_end_time and whose text contains the keyword, else none. -/
def scanSegs (kw : List Char) (lastEnd : ℚ) : List Seg → Option ℚ
  | [] => none
  | s :: rest =>
      if lastEnd ≤ s.start ∧ containsCI s.text kw then some s.start
      else scanSegs kw lastEnd rest

/-- find_best_timestamp (video_processor.py lines 68-82): semantic search
when the keyword is present and longer than 3 characters, otherwise the
deterministic fallback last_end_time + 40. -/
def find_best_timestamp (segments : List Seg) (keyword : Option (List Char))
    (lastEnd : ℚ) : ℚ :=
  match keyword with
  | some kw =>
      if 3 < kw.length then
        match scanSegs kw lastEnd segments with
        | some t => t
        | none => lastEnd + 40
      else lastEnd + 40
  | none => lastEnd + 40

/-- The clip-length accounting of the while-loop in prepare_video_for_short
(video_processor.py lines 162-195), projected onto the quantities that
determine the emitted clip lengths.  draws models the stream of
random.uniform(1.5, 2.5) values; rem is total_duration minus the duration
generated so far; the loop runs while rem is positive, clamping the drawn
length to rem when rem is smaller.  Fuel makes the recursion structural:
none means the fuel ran out before the loop finished, so termination within
some fuel bound is a theorem, not an assumption.  The keyword matching and
start-time selection in the same loop body do not feed back into the length
accounting. -/
def prepare_clip_lengths (draws : ℕ → ℚ) : ℕ → ℕ → ℚ → Option (List ℚ)
  | 0, _, rem => if 0 < rem then none else some []
  | fuel + 1, i, rem =>
      if 0 < rem then
        let d := draws i
        let len := if rem < d then rem else d
        (prepare_clip_lengths draws fuel (i + 1) (rem - len)).map (len :: ·)
      else some []

/-- The zoom scale applied by apply_micro_zoom (video_processor.py lines
84-99) at time t into a clip of the given duration and clip index: even
clips grow from 1 to 1.05, odd clips shrink from 1.05 to 1. -/
def micro_zoom_scale (index : ℕ) (duration t : ℚ) : ℚ :=
  let speed := (1 / 20) / duration
  if index % 2 = 0 then 1 + speed * t else 21 / 20 - speed * t

/-- Start offset at which QuizTemplate.generate places each narration clip
in the audio stack (template_quiz.py lines 245-247): the explanation clip is
placed at t_ans, the cta clip at t_cta; every other clip at the offset named
after its own role. -/
def narrationStart (d : Role → ℚ) : Role → ℚ := fun r =>
  match r with
  | .hook => (computeTimeline d).t_hook
  | .question => (computeTimeline d).t_q
  | .opt_a => (computeTimeline d).t_a
  | .opt_b => (computeTimeline d).t_b
  | .opt_c => (computeTimeline d).t_c
  | .opt_d => (computeTimeline d).t_d
  | .think => (computeTimeline d).t_think
  | .explanation => (computeTimeline d).t_ans
  | .cta => (computeTimeline d).t_cta

/-- Two half-open intervals, each given as (start, duration), share at least
one point. -/
def overlaps (a b : ℚ × ℚ) : Prop :=
  max a.1 b.1 < min (a.1 + a.2) (b.1 + b.2)

/-- The playback order of the nine narration clips (indices 0 to 8). -/
def roleOfIdx : ℕ → Role
  | 0 => .hook
  | 1 => .question
  | 2 => .opt_a
  | 3 => .opt_b
  | 4 => .opt_c
  | 5 => .opt_d
  | 6 => .think
  | 7 => .explanation
  | _ => .cta

/-- Index of each role in playback order. -/
def idxOfRole : Role → ℕ
  | .hook => 0
  | .question => 1
  | .opt_a => 2
  | .opt_b => 3
  | .opt_c => 4
  | .opt_d => 5
  | .think => 6
  | .explanation => 7
  | .cta => 8

/-- Concrete durations refuting unconditional non-overlap: every clip lasts
1 second except the think clip, which lasts 4 seconds. -/
def durThinkLong : Role → ℚ := fun r => if r = Role.think then 4 else 1

/-- The timings dict handed to SFXManager.generate_quiz_sfx by
template_quiz.py lines 232-239; at that call site all nine keys are
present. -/
structure QuizTimings where
  q : ℚ
  a : ℚ
  b : ℚ
  c : ℚ
  d : ℚ
  think : ℚ
  ans : ℚ
  cta : ℚ
  outro : ℚ

/-- One cue emitted by SFXManager.get_clip: the cue is kept only when the
asset can be loaded (modelled by avail); the emitted datum is the asset name
and its start offset (sfx_manager.py lines 34-74). -/
def sfxIf (avail : String → Bool) (name : String) (t : ℚ) :
    List (String × ℚ) :=
  if avail name then [(name, t)] else []

/-- The tick loop of generate_quiz_sfx (sfx_manager.py lines 98-104): for i
in range(n), one tick cue at start + i * 0.25. -/
def tickCues (avail : String → Bool) (start : ℚ) : ℕ → List (String × ℚ)
  | 0 => []
  | n + 1 => tickCues avail start n ++ sfxIf avail "tick" (start + n * (1 / 4))

/-- SFXManager.generate_quiz_sfx (sfx_manager.py lines 76-121): whoosh 0.2s
before the question, a pop at each option start, 12 ticks at quarter-second
spacing from the think start, the success chime at the answer start, the
flip cue at the cta start and the low swish at the outro start. -/
def generate_quiz_sfx (avail : String → Bool) (tm : QuizTimings) :
    List (String × ℚ) :=
  sfxIf avail "whoosh" (tm.q - 1 / 5) ++
  (sfxIf avail "pop" tm.a ++ sfxIf avail "pop" tm.b ++
    sfxIf avail "pop" tm.c ++ sfxIf avail "pop" tm.d) ++
  tickCues avail tm.think 12 ++
  sfxIf avail "success" tm.ans ++
  sfxIf avail "flip" tm.cta ++
  sfxIf avail "swish_low" tm.outro

/-- The start offsets of the tick cues in a cue list, in order. -/
def tickTimes (cues : List (String × ℚ)) : List ℚ :=
  cues.filterMap fun c => if c.1 = "tick" then some c.2 else none

/-- Modelled from the spec: n ticks evenly spaced across a pause of the
given length starting at thinkStart, the i-th tick at
thinkStart + i * (pauseLen / n). -/
def evenTicks (thinkStart pauseLen : ℚ) (n : ℕ) : List ℚ :=
  (List.range n).map fun i : ℕ => thinkStart + (i : ℚ) * (pauseLen / n)

/-- Concrete timings whose think pause (ans - think) lasts 4 seconds. -/
def timingsPause4 : QuizTimings := ⟨1, 2, 3, 4, 5, 6, 10, 11, 12⟩

/-- Concrete timings whose think pause (ans - think) lasts 3 seconds. -/
def timingsPause3 : QuizTimings := ⟨1, 2, 3, 4, 5, 6, 9, 10, 11⟩

/-- A music track as add_background_music sees it: its duration, whether
loading it raises, and whether audio_normalize on it raises. -/
structure Track where
  duration : ℚ
  loadFails : Bool
  normFails : Bool
deriving DecidableEq

/-- Result of the audio-mixing step: either the unchanged voice-only mix, or
the voice mix plus a music bed of the given length, looped the given number
of repetitions, normalized or left at raw level. -/
inductive Mix
  | voiceOnly
  | withMusic (bedLen : ℚ) (reps : ℤ) (normalized : Bool)
deriving DecidableEq

/-- Python int() on a rational: truncation toward zero. -/
def pyInt (q : ℚ) : ℤ := if q < 0 then -⌊-q⌋ else ⌊q⌋

/-- The try-block of add_background_music (shorts_engine.py lines 456-474)
for one chosen track: a load failure is caught and yields the voice-only
mix; a normalization failure is caught and only drops normalization; a
track shorter than the total duration is looped int(total/duration)+1 times
(a zero duration would raise ZeroDivisionError there, also caught); finally
the music is trimmed to exactly the total duration by subclip(0, total). -/
def mixTrack (t : Track) (total : ℚ) : Mix :=
  if t.loadFails then Mix.voiceOnly
  else if t.duration < total then
    if t.duration = 0 then Mix.voiceOnly
    else Mix.withMusic total (pyInt (total / t.duration) + 1) (!t.normFails)
  else Mix.withMusic total 1 (!t.normFails)

/-- add_background_music (shorts_engine.py lines 444-475): the track pool is
the mood directory, else every track in the music root, else the legacy
config/music.mp3 when it exists, else the voice track is returned unchanged;
choose models random.choice over the non-empty pool. -/
def add_background_music (moodTracks rootTracks : List Track)
    (legacy : Option Track) (choose : List Track → Track) (total : ℚ) : Mix :=
  let tracks := if moodTracks = [] then rootTracks else moodTracks
  if tracks = [] then
    match legacy with
    | some t => mixTrack t total
    | none => Mix.voiceOnly
  else mixTrack (choose tracks) total

/-- A track of duration 10 that loads fine but whose normalization fails. -/
def trackNormFail : Track := ⟨10, false, true⟩

/-- Python whitespace test for str.split() with no separator (ASCII part). -/
def isPySpace (c : Char) : Bool :=
  c == ' ' || c == '\t' || c == '\n' || c == '\r' || c == '\x0b' || c == '\x0c'

/-- Characters stripped by w.strip of the string of dot, comma, question
mark and exclamation mark in extract_keywords_ordered. -/
def isPunct (c : Char) : Bool :=
  c == '.' || c == ',' || c == '?' || c == '!'

/-- Worker for splitWs: acc holds the current in-progress word reversed. -/
def splitWsAux : List Char → List Char → List (List Char)
  | [], acc => match acc with | [] => [] | _ => [acc.reverse]
  | c :: rest, acc =>
      if isPySpace c then
        match acc with
        | [] => splitWsAux rest []
        | _ => acc.reverse :: splitWsAux rest []
      else splitWsAux rest (c :: acc)

/-- Python str.split() with no argument: split on whitespace runs,
discarding empty words. -/
def splitWs (l : List Char) : List (List Char) := splitWsAux l []

/-- Python w.strip of the punctuation set: drop those characters from both
ends of the word. -/
def stripPunct (w : List Char) : List Char :=
  ((w.dropWhile isPunct).reverse.dropWhile isPunct).reverse

/-- The stop-word set of extract_keywords_ordered
(video_processor.py lines 107-111). -/
def stop_words : List (List Char) :=
  ["the", "a", "an", "is", "are", "was", "were", "what", "to", "in",
   "of", "and", "for", "on", "with", "at", "by", "this", "that",
   "these", "those", "which", "who", "when", "where", "how", "why"].map
    String.toList

/-- Order-preserving deduplication with an explicit seen set, as in
extract_keywords_ordered lines 116-121. -/
def dedupKeep : List (List Char) → List (List Char) → List (List Char)
  | [], _ => []
  | w :: rest, seen =>
      if w ∈ seen then dedupKeep rest seen
      else w :: dedupKeep rest (w :: seen)

/-- Python script.get(key, default empty string) on a dict modelled as an
association list. -/
def pyGet (script : List (String × List Char)) (key : String) : List Char :=
  (lookupD script key).getD []

/-- The word filter of extract_keywords_ordered line 114: the stripped word
is not a stop word and the raw word is longer than 4 characters. -/
def keywordKeep (w : List Char) : Bool :=
  decide (stripPunct w ∉ stop_words) && decide (4 < w.length)

/-- extract_keywords_ordered (video_processor.py lines 101-122): join the
four script fields question_text, explanation_spoken, fact_details and
tip_content with single spaces, lower-case, split on whitespace, keep the
stripped form of every word passing the filter, and deduplicate preserving
order. -/
def extract_keywords_ordered (script : List (String × List Char)) :
    List (List Char) :=
  let full_text :=
    pyGet script "question_text" ++ [' '] ++
    pyGet script "explanation_spoken" ++ [' '] ++
    pyGet script "fact_details" ++ [' '] ++
    pyGet script "tip_content"
  let words := splitWs (pyLower full_text)
  let clean_words := (words.filter keywordKeep).map stripPunct
  dedupKeep clean_words []

/-- The same keyword pipeline applied to a single text: lower-case, split,
filter, strip, deduplicate in order. -/
def keywordsOfText (t : List Char) : List (List Char) :=
  dedupKeep (((splitWs (pyLower t)).filter keywordKeep).map stripPunct) []

/-- A quiz script payload, with exactly the fields of the quiz JSON format
of prompt_manager.py (quiz branch, lines 94-111). -/
structure QuizScript where
  filename_slug : List Char
  hook_spoken : List Char
  question_visual : List Char
  question_spoken : List Char
  opt_a_visual : List Char
  opt_a_spoken : List Char
  opt_b_visual : List Char
  opt_b_spoken : List Char
  opt_c_visual : List Char
  opt_c_spoken : List Char
  opt_d_visual : List Char
  opt_d_spoken : List Char
  correct_opt : List Char
  explanation_visual : List Char
  explanation_spoken : List Char
  cta_spoken : List Char

/-- The quiz payload as the dict that QuizTemplate.generate and
extract_keywords_ordered receive: its keys are exactly the quiz schema
keys. -/
def quizScriptDict (s : QuizScript) : List (String × List Char) :=
  [("filename_slug", s.filename_slug),
   ("hook_spoken", s.hook_spoken),
   ("question_visual", s.question_visual),
   ("question_spoken", s.question_spoken),
   ("opt_a_visual", s.opt_a_visual),
   ("opt_a_spoken", s.opt_a_spoken),
   ("opt_b_visual", s.opt_b_visual),
   ("opt_b_spoken", s.opt_b_spoken),
   ("opt_c_visual", s.opt_c_visual),
   ("opt_c_spoken", s.opt_c_spoken),
   ("opt_d_visual", s.opt_d_visual),
   ("opt_d_spoken", s.opt_d_spoken),
   ("correct_opt", s.correct_opt),
   ("explanation_visual", s.explanation_visual),
   ("explanation_spoken", s.explanation_spoken),
   ("cta_spoken", s.cta_spoken)]

/-- The audio_tasks dict of QuizTemplate.generate (template_quiz.py lines
47-58): one narration task per role, including a task with text Think fast!
for the think role. -/
def quizAudioTasks (s : QuizScript) : List (String × List Char) :=
  [("hook", s.hook_spoken),
   ("question", s.question_spoken),
   ("opt_a", "A: ".toList ++ s.opt_a_spoken),
   ("opt_b", "B: ".toList ++ s.opt_b_spoken),
   ("opt_c", "C: ".toList ++ s.opt_c_spoken),
   ("opt_d", "D: ".toList ++ s.opt_d_spoken),
   ("think", "Think fast!".toList),
   ("explanation",
     "The answer is ".toList ++ s.correct_opt ++ "! ".toList ++
       s.explanation_spoken),
   ("cta", s.cta_spoken)]

/-- A quiz script with empty text fields, used as a concrete input. -/
def emptyQuizScript : QuizScript :=
  ⟨[], [], [], [], [], [], [], [], [], [], [], [], [], [], [], []⟩

/-- Arrival order A of the nine pool results: template order, durations 1-9. -/
def arrivalA : List (Role × ℚ) :=
  [(Role.hook, 1), (Role.question, 2), (Role.opt_a, 3), (Role.opt_b, 4),
   (Role.opt_c, 5), (Role.opt_d, 6), (Role.think, 7), (Role.explanation, 8),
   (Role.cta, 9)]

/-- Arrival order B: the same results with the first two arrivals swapped. -/
def arrivalB : List (Role × ℚ) :=
  [(Role.question, 2), (Role.hook, 1), (Role.opt_a, 3), (Role.opt_b, 4),
   (Role.opt_c, 5), (Role.opt_d, 6), (Role.think, 7), (Role.explanation, 8),
   (Role.cta, 9)]

theorem lookupD_eq_none_iff {α β : Type} [DecidableEq α] (l : List (α × β))
    (r : α) : lookupD l r = none ↔ r ∉ l.map Prod.fst := by
  induction l with
  | nil => simp [lookupD]
  | cons p t ih =>
      obtain ⟨k, v⟩ := p
      simp only [lookupD, List.map_cons, List.mem_cons]
      by_cases h : r = k
      · simp [h]
      · simp [h, ih]

theorem lookupD_eq_some_iff {α β : Type} [DecidableEq α] (l : List (α × β))
    (hnd : (l.map Prod.fst).Nodup) (r : α) (v : β) :
    lookupD l r = some v ↔ (r, v) ∈ l := by
  induction l with
  | nil => simp [lookupD]
  | cons p t ih =>
      obtain ⟨k, w⟩ := p
      simp only [List.map_cons, List.nodup_cons] at hnd
      simp only [lookupD, List.mem_cons]
      by_cases h : r = k
      · subst h
        rw [if_pos rfl]
        constructor
        · rintro hv
          injection hv with hv
          subst hv
          exact Or.inl rfl
        · rintro (hv | hv)
          · rw [Prod.mk.injEq] at hv
            rw [hv.2]
          · exact absurd (List.mem_map_of_mem Prod.fst hv) hnd.1
      · rw [if_neg h, ih hnd.2]
        constructor
        · exact Or.inr
        · rintro (hv | hv)
          · rw [Prod.mk.injEq] at hv
            exact absurd hv.1 h
          · exact hv

theorem lookupD_perm {α β : Type} [DecidableEq α] {l1 l2 : List (α × β)}
    (hp : l1.Perm l2) (hnd : (l1.map Prod.fst).Nodup) (r : α) :
    lookupD l1 r = lookupD l2 r := by
  have hnd2 : (l2.map Prod.fst).Nodup := ((hp.map Prod.fst).nodup_iff).mp hnd
  cases h1 : lookupD l1 r with
  | none =>
      symm
      rw [lookupD_eq_none_iff] at h1 ⊢
      exact fun hm => h1 (((hp.map Prod.fst).mem_iff).mpr hm)
  | some v =>
      symm
      rw [lookupD_eq_some_iff l2 hnd2]
      rw [lookupD_eq_some_iff l1 hnd] at h1
      exact hp.mem_iff.mp h1

theorem collectResults_eq_lookup (l : List (Role × ℚ))
    (hnd : (l.map Prod.fst).Nodup) (d : Role → ℚ) (r : Role) :
    collectResults l d r = (lookupD l r).getD (d r) := by
  induction l generalizing d with
  | nil => rfl
  | cons p t ih =>
      obtain ⟨k, v⟩ := p
      simp only [List.map_cons, List.nodup_cons] at hnd
      have hstep : collectResults ((k, v) :: t) d
          = collectResults t (Function.update d k v) := rfl
      rw [hstep, ih hnd.2 (Function.update d k v)]
      simp only [lookupD]
      by_cases h : r = k
      · subst h
        have hnone : lookupD t r = none := (lookupD_eq_none_iff t r).mpr hnd.1
        rw [hnone, if_pos rfl]
        simp [Function.update]
      · rw [if_neg h]
        cases hl : lookupD t r <;> simp [Function.update, h]

/-- C1: the timeline computed by QuizTemplate.generate is invariant under
the completion order of the bounded synthesis pool: results are collected
keyed by role, so any two arrival orders of the same set of per-role
durations yield the identical Timeline. -/
theorem timeline_reorder_invariance (l1 l2 : List (Role × ℚ)) (d : Role → ℚ)
    (hperm : l1.Perm l2) (hnd : (l1.map Prod.fst).Nodup) :
    computeTimeline (collectResults l1 d) =
      computeTimeline (collectResults l2 d) := by
  have hnd2 : (l2.map Prod.fst).Nodup := ((hperm.map Prod.fst).nodup_iff).mp hnd
  have hfun : collectResults l1 d = collectResults l2 d := by
    funext r
    rw [collectResults_eq_lookup l1 hnd d r, collectResults_eq_lookup l2 hnd2 d r,
      lookupD_perm hperm hnd r]
  rw [hfun]

/-- Witness for C1 at two concrete arrival orders of the same results. -/
theorem timeline_reorder_invariance_witness :
    arrivalA.Perm arrivalB ∧ (arrivalA.map Prod.fst).Nodup ∧
      computeTimeline (collectResults arrivalA fun _ => 0) =
        computeTimeline (collectResults arrivalB fun _ => 0) :=
  ⟨by decide, by decide,
    timeline_reorder_invariance arrivalA arrivalB (fun _ => 0) (by decide)
      (by decide)⟩

/-- C2: the timeline is built by sequential accumulation, the only
exceptions being the think pause (exactly THINK_TIME) and the outro
(exactly OUTRO_DURATION); under non-negative durations the starts are
monotonically non-decreasing. -/
theorem timeline_sequential_accumulation (d : Role → ℚ) (h : ∀ r, 0 ≤ d r) :
    ((computeTimeline d).t_hook = 0 ∧
     (computeTimeline d).t_q = (computeTimeline d).t_hook + d .hook ∧
     (computeTimeline d).t_a = (computeTimeline d).t_q + d .question ∧
     (computeTimeline d).t_b = (computeTimeline d).t_a + d .opt_a ∧
     (computeTimeline d).t_c = (computeTimeline d).t_b + d .opt_b ∧
     (computeTimeline d).t_d = (computeTimeline d).t_c + d .opt_c ∧
     (computeTimeline d).t_think = (computeTimeline d).t_d + d .opt_d ∧
     (computeTimeline d).t_ans = (computeTimeline d).t_think + THINK_TIME ∧
     (computeTimeline d).t_cta = (computeTimeline d).t_ans + d .explanation ∧
     (computeTimeline d).t_outro = (computeTimeline d).t_cta + d .cta ∧
     (computeTimeline d).total_dur = (computeTimeline d).t_outro + OUTRO_DURATION) ∧
    ((computeTimeline d).t_hook ≤ (computeTimeline d).t_q ∧
     (computeTimeline d).t_q ≤ (computeTimeline d).t_a ∧
     (computeTimeline d).t_a ≤ (computeTimeline d).t_b ∧
     (computeTimeline d).t_b ≤ (computeTimeline d).t_c ∧
     (computeTimeline d).t_c ≤ (computeTimeline d).t_d ∧
     (computeTimeline d).t_d ≤ (computeTimeline d).t_think ∧
     (computeTimeline d).t_think ≤ (computeTimeline d).t_ans ∧
     (computeTimeline d).t_ans ≤ (computeTimeline d).t_cta ∧
     (computeTimeline d).t_cta ≤ (computeTimeline d).t_outro ∧
     (computeTimeline d).t_outro ≤ (computeTimeline d).total_dur) := by
  refine ⟨⟨rfl, rfl, rfl, rfl, rfl, rfl, rfl, rfl, rfl, rfl, rfl⟩, ?_⟩
  have h0 := h .hook
  have h1 := h .question
  have h2 := h .opt_a
  have h3 := h .opt_b
  have h4 := h .opt_c
  have h5 := h .opt_d
  have h6 := h .explanation
  have h7 := h .cta
  dsimp only [computeTimeline, THINK_TIME, OUTRO_DURATION]
  refine ⟨?_, ?_, ?_, ?_, ?_, ?_, ?_, ?_, ?_, ?_⟩ <;> linarith

/-- Witness for C2 with every duration equal to 1. -/
theorem timeline_sequential_accumulation_witness :
    (∀ r : Role, (0:ℚ) ≤ (fun _ : Role => (1:ℚ)) r) ∧
      (computeTimeline fun _ : Role => (1:ℚ)).t_hook ≤
        (computeTimeline fun _ : Role => (1:ℚ)).t_q :=
  ⟨fun _ => zero_le_one,
    ((timeline_sequential_accumulation (fun _ => 1) fun _ => zero_le_one).2).1⟩

theorem scanSegs_eq_find (kw : List Char) (nb : ℚ) (segments : List Seg) :
    scanSegs kw nb segments =
      (segments.find? fun s =>
        decide (nb ≤ s.start) && containsCI s.text kw).map Seg.start := by
  induction segments with
  | nil => rfl
  | cons s rest ih =>
      by_cases hc : nb ≤ s.start ∧ (containsCI s.text kw : Bool)
      · have hb : (decide (nb ≤ s.start) && containsCI s.text kw) = true := by
          simp [hc.1, hc.2]
        simp [scanSegs, hc, List.find?, hb]
      · have hb : (decide (nb ≤ s.start) && containsCI s.text kw) = false := by
          rcases not_and_or.mp hc with h | h
          · simp [h]
          · simp [Bool.of_not_eq_true h]
        simp [scanSegs, hc, List.find?, hb, ih]

/-- C3: find_best_timestamp returns the start of the first transcript
segment at or after not_before whose text contains the keyword
case-insensitively, and in every other case (no match, keyword missing, or
keyword of length at most 3) exactly not_before plus the fixed skip of
40 seconds. -/
theorem find_best_timestamp_spec (segments : List Seg)
    (keyword : Option (List Char)) (nb : ℚ) :
    find_best_timestamp segments keyword nb =
      match keyword with
      | none => nb + 40
      | some kw =>
          if 3 < kw.length then
            ((segments.find? fun s =>
                decide (nb ≤ s.start) && containsCI s.text kw).map
              Seg.start).getD (nb + 40)
          else nb + 40 := by
  match keyword with
  | none => rfl
  | some kw =>
      simp only [find_best_timestamp]
      by_cases hl : 3 < kw.length
      · rw [if_pos hl, if_pos hl, scanSegs_eq_find]
        cases (segments.find? fun s =>
            decide (nb ≤ s.start) && containsCI s.text kw).map Seg.start <;> rfl
      · rw [if_neg hl, if_neg hl]

theorem prepare_clip_lengths_sum (draws : ℕ → ℚ)
    (hd : ∀ i, 3 / 2 ≤ draws i ∧ draws i ≤ 5 / 2) :
    ∀ (fuel i : ℕ) (rem : ℚ), rem ≤ fuel * (3 / 2) →
      ∃ l, prepare_clip_lengths draws fuel i rem = some l ∧
        l.sum = max rem 0 := by
  intro fuel
  induction fuel with
  | zero =>
      intro i rem hrem
      norm_num at hrem
      refine ⟨[], ?_, ?_⟩
      · simp [prepare_clip_lengths, not_lt.mpr hrem]
      · simp [max_eq_right hrem]
  | succ fuel ih =>
      intro i rem hrem
      push_cast at hrem
      by_cases hpos : 0 < rem
      · by_cases hlt : rem < draws i
        · have h0 : (0:ℚ) ≤ (fuel : ℚ) * (3 / 2) := by positivity
          obtain ⟨l, hl, hs⟩ := ih (i + 1) (rem - rem) (by rw [sub_self]; exact h0)
          refine ⟨rem :: l, ?_, ?_⟩
          · simp only [prepare_clip_lengths, if_pos hpos, if_pos hlt, hl]
            rfl
          · simp only [List.sum_cons, hs]
            simp [max_eq_left hpos.le]
        · have h32 : 3 / 2 ≤ draws i := (hd i).1
          have hle : draws i ≤ rem := not_lt.mp hlt
          obtain ⟨l, hl, hs⟩ := ih (i + 1) (rem - draws i) (by linarith)
          refine ⟨draws i :: l, ?_, ?_⟩
          · simp only [prepare_clip_lengths, if_pos hpos, if_neg hlt, hl]
            rfl
          · have hge : (0:ℚ) ≤ rem - draws i := by linarith
            simp only [List.sum_cons, hs, max_eq_left hge,
              max_eq_left hpos.le]
            ring
      · refine ⟨[], ?_, ?_⟩
        · simp [prepare_clip_lengths, hpos]
        · simp [max_eq_right (not_lt.mp hpos)]

/-- C4: for every positive target duration the clip-length loop of
prepare_video_for_short terminates (with fuel linear in the target, since
every draw is at least 1.5) and the emitted clip lengths sum to the target
exactly, the final draw being clamped to the exact remainder. -/
theorem scene_lengths_sum_exact (draws : ℕ → ℚ) (target : ℚ) (fuel : ℕ)
    (hd : ∀ i, 3 / 2 ≤ draws i ∧ draws i ≤ 5 / 2) (hpos : 0 < target)
    (hfuel : target ≤ fuel * (3 / 2)) :
    ∃ l, prepare_clip_lengths draws fuel 0 target = some l ∧
      l.sum = target := by
  obtain ⟨l, hl, hs⟩ := prepare_clip_lengths_sum draws hd fuel 0 target hfuel
  exact ⟨l, hl, by rwa [max_eq_left hpos.le] at hs⟩

/-- Witness for C4: constant draws of 2 seconds, target 3 seconds. -/
theorem scene_lengths_sum_exact_witness :
    (∀ i : ℕ, 3 / 2 ≤ (fun _ : ℕ => (2:ℚ)) i ∧ (fun _ : ℕ => (2:ℚ)) i ≤ 5 / 2) ∧
      (0:ℚ) < 3 ∧ (3:ℚ) ≤ (2:ℕ) * (3 / 2) ∧
      ∃ l, prepare_clip_lengths (fun _ => 2) 2 0 3 = some l ∧ l.sum = 3 :=
  ⟨fun _ => by norm_num, by norm_num, by norm_num,
    scene_lengths_sum_exact (fun _ => 2) 3 2 (fun _ => by norm_num)
      (by norm_num) (by norm_num)⟩

/-- C5 counterexample: QuizTemplate.generate does create a narration task
for the think role, with text Think fast!, so narration is synthesized for
the think pause. -/
theorem think_narration_task_exists :
    lookupD (quizAudioTasks emptyQuizScript) "think" =
      some "Think fast!".toList := by
  decide

/-- C5 amended: a narration task (text Think fast!) is synthesized for the
think role, but the computed timeline never reads the think clip duration:
two duration assignments agreeing everywhere except on the think role yield
the identical Timeline, so the answer start is the think start plus exactly
the 3.0 constant. -/
theorem think_duration_never_read (d d2 : Role → ℚ) (s : QuizScript)
    (h : ∀ r, r ≠ Role.think → d r = d2 r) :
    computeTimeline d = computeTimeline d2 ∧
      lookupD (quizAudioTasks s) "think" = some "Think fast!".toList := by
  constructor
  · simp only [computeTimeline, h .hook (by decide), h .question (by decide),
      h .opt_a (by decide), h .opt_b (by decide), h .opt_c (by decide),
      h .opt_d (by decide), h .explanation (by decide), h .cta (by decide)]
  · rfl

/-- Witness for C5 amended at concrete duration assignments. -/
theorem think_duration_never_read_witness :
    (∀ r : Role, r ≠ Role.think →
        (fun _ : Role => (1:ℚ)) r = (fun _ : Role => (1:ℚ)) r) ∧
      computeTimeline (fun _ : Role => (1:ℚ)) =
        computeTimeline (fun _ : Role => (1:ℚ)) :=
  ⟨fun _ _ => rfl,
    (think_duration_never_read (fun _ => 1) (fun _ => 1) emptyQuizScript
        fun _ _ => rfl).1⟩

/-- C9: the micro zoom scale of an even clip runs from 1 to 1.05 and of an
odd clip from 1.05 to 1, so at every cut the outgoing scale (at t equal to
the clip duration) equals the incoming scale (at t equal to 0) of the next
clip. -/
theorem micro_zoom_continuity (i : ℕ) (dur dur2 : ℚ) (h : 0 < dur) :
    micro_zoom_scale i dur dur = micro_zoom_scale (i + 1) dur2 0 := by
  have hne : dur ≠ 0 := ne_of_gt h
  rcases Nat.mod_two_eq_zero_or_one i with hp | hp
  · have hp1 : (i + 1) % 2 = 1 := by omega
    simp only [micro_zoom_scale, hp, hp1]
    norm_num
    rw [div_mul_cancel₀ _ hne]
    norm_num
  · have hp1 : (i + 1) % 2 = 0 := by omega
    simp only [micro_zoom_scale, hp, hp1]
    norm_num
    rw [div_mul_cancel₀ _ hne]
    norm_num

/-- Witness for C9 at clip index 0 and duration 2. -/
theorem micro_zoom_continuity_witness :
    (0:ℚ) < 2 ∧ micro_zoom_scale 0 2 2 = micro_zoom_scale 1 2 0 :=
  ⟨by norm_num, micro_zoom_continuity 0 2 2 (by norm_num)⟩

theorem overlaps_comm (a b : ℚ × ℚ) : overlaps a b ↔ overlaps b a := by
  unfold overlaps
  rw [max_comm, min_comm]

theorem narration_step (d : Role → ℚ) (hthink : d Role.think ≤ THINK_TIME) :
    ∀ n, n < 8 → narrationStart d (roleOfIdx n) + d (roleOfIdx n) ≤
      narrationStart d (roleOfIdx (n + 1))  := by
  intro n hn
  interval_cases n <;>
    dsimp only [roleOfIdx, narrationStart, computeTimeline] <;>
    linarith [hthink]

theorem narration_mono (d : Role → ℚ) (h0 : ∀ r, 0 ≤ d r)
    (hthink : d Role.think ≤ THINK_TIME) :
    ∀ n, n ≤ 8 → ∀ m, m < n →
      narrationStart d (roleOfIdx m) + d (roleOfIdx m) ≤
        narrationStart d (roleOfIdx n) := by
  intro n
  induction n with
  | zero => omega
  | succ n ih =>
      intro hn m hm
      have hstep := narration_step d hthink n (by omega)
      rcases Nat.lt_succ_iff_lt_or_eq.mp hm with h | h
      · have hmn := ih (by omega) m h
        have hnn : (0:ℚ) ≤ d (roleOfIdx n) := h0 (roleOfIdx n)
        linarith
      · subst h
        exact hstep

/-- C6 counterexample: with the think clip 4 seconds long and every other
clip 1 second, the placed think interval and the placed explanation
interval overlap, so the placed narration intervals do not stay disjoint
for all synthesized clip durations. -/
theorem narration_overlap_counterexample :
    overlaps (narrationStart durThinkLong Role.think, durThinkLong Role.think)
      (narrationStart durThinkLong Role.explanation,
        durThinkLong Role.explanation) := by
  have e1 : durThinkLong Role.hook = 1 := rfl
  have e2 : durThinkLong Role.question = 1 := rfl
  have e3 : durThinkLong Role.opt_a = 1 := rfl
  have e4 : durThinkLong Role.opt_b = 1 := rfl
  have e5 : durThinkLong Role.opt_c = 1 := rfl
  have e6 : durThinkLong Role.opt_d = 1 := rfl
  have e7 : durThinkLong Role.think = 4 := rfl
  have e8 : durThinkLong Role.explanation = 1 := rfl
  norm_num [overlaps, narrationStart, computeTimeline, THINK_TIME,
    e1, e2, e3, e4, e5, e6, e7, e8, max_def, min_def]

/-- C6 amended: the mixer places each narration clip verbatim at its
Timeline-derived offset, and the placed intervals are pairwise disjoint
whenever every clip duration is non-negative and the think clip is no
longer than the 3.0-second think pause; the think clip is the only one
whose duration can break the construction. -/
theorem narration_intervals_disjoint (d : Role → ℚ) (h0 : ∀ r, 0 ≤ d r)
    (hthink : d Role.think ≤ THINK_TIME) :
    ∀ r s, r ≠ s →
      ¬ overlaps (narrationStart d r, d r) (narrationStart d s, d s) := by
  have hback : ∀ r, roleOfIdx (idxOfRole r) = r := by
    intro r
    cases r <;> rfl
  have hbound : ∀ r, idxOfRole r ≤ 8 := by
    intro r
    cases r <;> simp [idxOfRole]
  have key : ∀ r s, idxOfRole r < idxOfRole s →
      ¬ overlaps (narrationStart d r, d r) (narrationStart d s, d s) := by
    intro r s hlt hov
    have hm := narration_mono d h0 hthink (idxOfRole s) (hbound s)
      (idxOfRole r) hlt
    rw [hback r, hback s] at hm
    unfold overlaps at hov
    simp only at hov
    have h1 : min (narrationStart d r + d r) (narrationStart d s + d s) ≤
        narrationStart d r + d r := min_le_left _ _
    have h2 : narrationStart d s ≤
        max (narrationStart d r) (narrationStart d s) := le_max_right _ _
    linarith
  intro r s hne
  have hidx : idxOfRole r ≠ idxOfRole s := by
    intro he
    exact hne (by rw [← hback r, ← hback s, he])
  rcases lt_or_gt_of_ne hidx with h | h
  · exact key r s h
  · intro hov
    exact key s r h ((overlaps_comm _ _).mp hov)

/-- Witness for C6 amended with every clip duration equal to 1. -/
theorem narration_intervals_disjoint_witness :
    (∀ r : Role, (0:ℚ) ≤ (fun _ : Role => (1:ℚ)) r) ∧
      (fun _ : Role => (1:ℚ)) Role.think ≤ THINK_TIME ∧
      Role.hook ≠ Role.cta ∧
      ¬ overlaps
        (narrationStart (fun _ => 1) Role.hook, (fun _ : Role => (1:ℚ)) Role.hook)
        (narrationStart (fun _ => 1) Role.cta, (fun _ : Role => (1:ℚ)) Role.cta) :=
  ⟨fun _ => zero_le_one, by norm_num [THINK_TIME], by decide,
    narration_intervals_disjoint (fun _ => 1) (fun _ => zero_le_one)
      (by norm_num [THINK_TIME]) Role.hook Role.cta (by decide)⟩

theorem sfxIf_true (name : String) (t : ℚ) :
    sfxIf (fun _ => true) name t = [(name, t)] := rfl

theorem tickCues_true (start : ℚ) :
    ∀ n, tickCues (fun _ => true) start n =
      (List.range n).map fun i : ℕ => ("tick", start + (i : ℚ) * (1 / 4)) := by
  intro n
  induction n with
  | zero => rfl
  | succ n ih =>
      rw [tickCues, ih, List.range_succ, List.map_append]
      rfl

theorem generate_quiz_sfx_all (tm : QuizTimings) :
    generate_quiz_sfx (fun _ => true) tm =
      [("whoosh", tm.q - 1 / 5), ("pop", tm.a), ("pop", tm.b), ("pop", tm.c),
          ("pop", tm.d)] ++
        ((List.range 12).map fun i : ℕ =>
            ("tick", tm.think + (i : ℚ) * (1 / 4))) ++
        [("success", tm.ans), ("flip", tm.cta), ("swish_low", tm.outro)] := by
  simp [generate_quiz_sfx, sfxIf, tickCues_true]

theorem tickTimes_quiz (tm : QuizTimings) :
    tickTimes (generate_quiz_sfx (fun _ => true) tm) =
      (List.range 12).map fun i : ℕ => tm.think + (i : ℚ) * (1 / 4) := by
  rw [generate_quiz_sfx_all]
  simp only [tickTimes, List.filterMap_append]
  have h1 : List.filterMap
      (fun c : String × ℚ => if c.1 = "tick" then some c.2 else none)
      [("whoosh", tm.q - 1 / 5), ("pop", tm.a), ("pop", tm.b), ("pop", tm.c),
        ("pop", tm.d)] = [] := rfl
  have h3 : List.filterMap
      (fun c : String × ℚ => if c.1 = "tick" then some c.2 else none)
      [("success", tm.ans), ("flip", tm.cta), ("swish_low", tm.outro)] = [] :=
    rfl
  have h2 : List.filterMap
      (fun c : String × ℚ => if c.1 = "tick" then some c.2 else none)
      ((List.range 12).map fun i : ℕ =>
        ("tick", tm.think + (i : ℚ) * (1 / 4))) =
      (List.range 12).map fun i : ℕ => tm.think + (i : ℚ) * (1 / 4) := by
    rw [List.filterMap_map]
    exact congrFun (List.filterMap_eq_map _) _
  rw [h1, h2, h3, List.nil_append, List.append_nil]

/-- C7 counterexample: for timings whose think pause lasts 4 seconds, the
tick cues are not the 12 evenly spaced ticks across the pause (the second
code tick sits a quarter second in; an evenly spaced tick would sit a third
of a second in), so the ticks do not adapt to the configured pause. -/
theorem sfx_ticks_not_even_counterexample :
    timingsPause4.ans - timingsPause4.think = 4 ∧
      tickTimes (generate_quiz_sfx (fun _ => true) timingsPause4) ≠
        evenTicks timingsPause4.think
          (timingsPause4.ans - timingsPause4.think) 12 := by
  constructor
  · norm_num [timingsPause4]
  · rw [tickTimes_quiz]
    intro he
    have h1 := congrArg (fun l => l[1]?) he
    simp only [evenTicks, List.getElem?_map,
      List.getElem?_range (by norm_num : (1:ℕ) < 12), Option.map_some'] at h1
    rw [Option.some.injEq] at h1
    norm_num [timingsPause4] at h1

/-- C7 amended: generate_quiz_sfx places the whoosh at question start minus
0.2, one pop at each option start, the success chime at the answer start,
the flip cue at the cta start and the low swish at the outro start, and 12
tick cues at fixed quarter-second offsets from the think start; the ticks
coincide with 12 evenly spaced ticks across the pause exactly when the
think pause lasts the hard-wired 3.0 seconds. -/
theorem quiz_sfx_cue_placement (tm : QuizTimings)
    (h : tm.ans - tm.think = 3) :
    generate_quiz_sfx (fun _ => true) tm =
      [("whoosh", tm.q - 1 / 5), ("pop", tm.a), ("pop", tm.b), ("pop", tm.c),
          ("pop", tm.d)] ++
        ((List.range 12).map fun i : ℕ =>
            ("tick", tm.think + (i : ℚ) * (1 / 4))) ++
        [("success", tm.ans), ("flip", tm.cta), ("swish_low", tm.outro)] ∧
      tickTimes (generate_quiz_sfx (fun _ => true) tm) =
        evenTicks tm.think (tm.ans - tm.think) 12 := by
  refine ⟨generate_quiz_sfx_all tm, ?_⟩
  rw [tickTimes_quiz, h]
  unfold evenTicks
  refine List.map_congr_left ?_
  intro i _
  norm_num

/-- Witness for C7 amended at concrete timings with a 3-second pause. -/
theorem quiz_sfx_cue_placement_witness :
    timingsPause3.ans - timingsPause3.think = 3 ∧
      tickTimes (generate_quiz_sfx (fun _ => true) timingsPause3) =
        evenTicks timingsPause3.think
          (timingsPause3.ans - timingsPause3.think) 12 :=
  ⟨by norm_num [timingsPause3],
    (quiz_sfx_cue_placement timingsPause3 (by norm_num [timingsPause3])).2⟩

theorem pyInt_of_nonneg (q : ℚ) (h : 0 ≤ q) : pyInt q = ⌊q⌋ := by
  simp [pyInt, not_lt.mpr h]

theorem mixTrack_cases (t : Track) (total : ℚ) :
    mixTrack t total = Mix.voiceOnly ∨
      ∃ reps norm, mixTrack t total = Mix.withMusic total reps norm := by
  unfold mixTrack
  split_ifs
  · exact Or.inl rfl
  · exact Or.inl rfl
  · exact Or.inr ⟨_, _, rfl⟩
  · exact Or.inr ⟨_, _, rfl⟩

/-- C8 counterexample: a track whose normalization fails is still mixed in
at raw level, so the result keeps the music bed rather than degrading to
the voice-only mix, refuting the claim that a normalization failure also
degrades to voice-only. -/
theorem music_norm_failure_not_voice_only :
    add_background_music [trackNormFail] [] none
        (fun l => l.headD trackNormFail) 5 = Mix.withMusic 5 1 false ∧
      Mix.withMusic (5:ℚ) 1 false ≠ Mix.voiceOnly := by
  constructor
  · norm_num [add_background_music, mixTrack, trackNormFail]
  · intro h
    exact Mix.noConfusion h

/-- C8 amended: add_background_music never raises: with no mood tracks it
falls back to the music-root tracks, then to the legacy default track, then
to the voice-only mix; a load failure (or zero track duration) degrades to
the voice-only mix; a track shorter than the total duration is looped
floor(total/duration) + 1 times, which is at least the ceiling of the ratio
and long enough that trimming yields a bed of exactly the total duration;
a normalization failure only drops normalization, the music bed is kept;
and every outcome is the voice-only mix or a music bed spanning exactly the
total duration. -/
theorem add_background_music_behavior (mood root : List Track)
    (legacy : Option Track) (choose : List Track → Track) (total : ℚ)
    (hpos : 0 < total) :
    (mood = [] → root ≠ [] →
      add_background_music mood root legacy choose total =
        mixTrack (choose root) total) ∧
    (mood = [] → root = [] → legacy = none →
      add_background_music mood root legacy choose total = Mix.voiceOnly) ∧
    (∀ t, mood = [] → root = [] → legacy = some t →
      add_background_music mood root legacy choose total = mixTrack t total) ∧
    (∀ t : Track, t.loadFails = true → mixTrack t total = Mix.voiceOnly) ∧
    (∀ t : Track, t.loadFails = false → 0 < t.duration → t.duration < total →
      mixTrack t total =
        Mix.withMusic total (⌊total / t.duration⌋ + 1) (!t.normFails) ∧
      total ≤ ((⌊total / t.duration⌋ : ℚ) + 1) * t.duration ∧
      ⌈total / t.duration⌉ ≤ ⌊total / t.duration⌋ + 1) ∧
    (add_background_music mood root legacy choose total = Mix.voiceOnly ∨
      ∃ reps norm, add_background_music mood root legacy choose total =
        Mix.withMusic total reps norm) := by
  refine ⟨?_, ?_, ?_, ?_, ?_, ?_⟩
  · intro h1 h2
    simp [add_background_music, h1, h2]
  · intro h1 h2 h3
    simp [add_background_music, h1, h2, h3]
  · intro t h1 h2 h3
    simp [add_background_music, h1, h2, h3]
  · intro t ht
    simp [mixTrack, ht]
  · intro t h1 h2 h3
    have hdivnn : (0:ℚ) ≤ total / t.duration := by positivity
    refine ⟨?_, ?_, Int.ceil_le_floor_add_one _⟩
    · simp [mixTrack, h1, h3, ne_of_gt h2, pyInt_of_nonneg _ hdivnn]
    · have hlt : total / t.duration < ⌊total / t.duration⌋ + 1 :=
        Int.lt_floor_add_one _
      have := (div_lt_iff₀ h2).mp hlt
      linarith
  · dsimp only [add_background_music]
    by_cases hm : (if mood = [] then root else mood) = []
    · rw [if_pos hm]
      cases legacy with
      | none => exact Or.inl rfl
      | some t => exact mixTrack_cases t total
    · rw [if_neg hm]
      exact mixTrack_cases _ total

/-- Witness for C8 amended: with no music assets at all the result is the
voice-only mix. -/
theorem add_background_music_behavior_witness :
    (0:ℚ) < 5 ∧
      add_background_music [] [] none (fun l => l.headD trackNormFail) 5 =
        Mix.voiceOnly :=
  ⟨by norm_num,
    (add_background_music_behavior [] [] none
          (fun l => l.headD trackNormFail) 5 (by norm_num)).2.1 rfl rfl rfl⟩

theorem splitWsAux_append_space : ∀ (l acc : List Char),
    splitWsAux (l ++ [' ']) acc = splitWsAux l acc := by
  intro l
  induction l with
  | nil =>
      intro acc
      cases acc <;> rfl
  | cons c rest ih =>
      intro acc
      by_cases hc : isPySpace c = true
      · cases acc <;> simp [splitWsAux, hc, ih]
      · simp [splitWsAux, hc, ih]

theorem splitWs_pad (x : List Char) :
    splitWs ([' '] ++ x ++ [' '] ++ [' ']) = splitWs x := by
  have h1 : [' '] ++ x ++ [' '] ++ [' '] = ' ' :: ((x ++ [' ']) ++ [' ']) := by
    simp
  rw [h1]
  show splitWsAux ((x ++ [' ']) ++ [' ']) [] = splitWsAux x []
  rw [splitWsAux_append_space, splitWsAux_append_space]

/-- C10: the keyword queue of a quiz script equals the ordered
deduplication of the stripped, stop-word-filtered words of raw length
greater than 4 of explanation_spoken alone: the fields read by
extract_keywords_ordered (question_text, fact_details, tip_content) are not
part of the quiz schema, so only explanation_spoken contributes and the
question text never yields scene-matching keywords. -/
theorem quiz_keywords_from_explanation_only (s : QuizScript) :
    extract_keywords_ordered (quizScriptDict s) =
      keywordsOfText s.explanation_spoken := by
  have hq : pyGet (quizScriptDict s) "question_text" = [] := rfl
  have he : pyGet (quizScriptDict s) "explanation_spoken" =
      s.explanation_spoken := rfl
  have hf : pyGet (quizScriptDict s) "fact_details" = [] := rfl
  have ht : pyGet (quizScriptDict s) "tip_content" = [] := rfl
  have harg : pyGet (quizScriptDict s) "question_text" ++ [' '] ++
      pyGet (quizScriptDict s) "explanation_spoken" ++ [' '] ++
      pyGet (quizScriptDict s) "fact_details" ++ [' '] ++
      pyGet (quizScriptDict s) "tip_content" =
      [' '] ++ s.explanation_spoken ++ [' '] ++ [' '] := by
    rw [hq, he, hf, ht]
    simp
  have hlow : pyLower ([' '] ++ s.explanation_spoken ++ [' '] ++ [' ']) =
      [' '] ++ pyLower s.explanation_spoken ++ [' '] ++ [' '] := by
    simp [pyLower, lowerCh]
  simp only [extract_keywords_ordered, keywordsOfText, harg, hlow,
    splitWs_pad]
